import Mathlib

/-
Verification development for the claude-max-proxy worker (src/src/index.ts).

Strings of the worker are modelled as lists of characters; JavaScript
objects touched by the worker are modelled as structures holding exactly
the fields the code reads or writes, with `Option` for possibly-absent
fields.  External calls (the key-value store, the refresh exchange, the
version lookup, the upstream forward) are modelled by oracle inputs and
an explicit effect trace.
-/

abbrev Chars := List Char

/-- JavaScript whitespace, as matched by a regular-expression backslash-s
and by trim: tab, line feed, vertical tab, form feed, carriage return,
space, and the usual unicode space characters. -/
def isJsWs (c : Char) : Bool :=
  c.toNat = 9 || c.toNat = 10 || c.toNat = 11 || c.toNat = 12 || c.toNat = 13 ||
  c.toNat = 32 || c.toNat = 0xa0 || c.toNat = 0x1680 ||
  (0x2000 ≤ c.toNat && c.toNat ≤ 0x200a) ||
  c.toNat = 0x2028 || c.toNat = 0x2029 || c.toNat = 0x202f ||
  c.toNat = 0x205f || c.toNat = 0x3000 || c.toNat = 0xfeff

/-- JavaScript `s.split(sep)` for a single-character separator: empty
segments are kept. -/
def splitOn1 (sep : Char) : Chars → List Chars
  | [] => [[]]
  | c :: cs =>
    if c = sep then [] :: splitOn1 sep cs
    else
      match splitOn1 sep cs with
      | t :: ts => (c :: t) :: ts
      | [] => [[c]]

/-- JavaScript `s.trim()`. -/
def jsTrim (s : Chars) : Chars :=
  ((s.dropWhile isJsWs).reverse.dropWhile isJsWs).reverse

def digitChar (d : Nat) : Char := Char.ofNat (48 + d)

def natStrGo : Nat → Nat → Chars
  | 0, _ => []
  | f+1, n => if n < 10 then [digitChar n] else natStrGo f (n / 10) ++ [digitChar (n % 10)]

/-- Decimal rendering of a natural number (JavaScript template-literal
interpolation of a non-negative integer). -/
def natStr (n : Nat) : Chars := natStrGo (n + 1) n

/-- Case-insensitive prefix test (for a regular expression with the i
flag over an ASCII pattern). -/
def ciPrefix : Chars → Chars → Bool
  | [], _ => true
  | _ :: _, [] => false
  | p :: ps, c :: cs => (c.toLower = p.toLower) && ciPrefix ps cs

/-- JavaScript `s.replace(/pat/g, rep)` for a literal pattern: scan left
to right, replace non-overlapping occurrences.  Fuel is the length of the
scanned string; each step consumes at least one character, so fuel equal
to the length never runs out. -/
def replAllGo (pat rep : Chars) : Nat → Chars → Chars
  | 0, s => s
  | _+1, [] => []
  | f+1, c :: cs =>
    if pat ≠ [] && pat.isPrefixOf (c :: cs) then
      rep ++ replAllGo pat rep f (List.drop pat.length (c :: cs))
    else
      c :: replAllGo pat rep f cs

def replAll (pat rep s : Chars) : Chars := replAllGo pat rep s.length s

/-- JavaScript `s.replace(/pat/gi, rep)` for a literal pattern. -/
def replAllCIGo (pat rep : Chars) : Nat → Chars → Chars
  | 0, s => s
  | _+1, [] => []
  | f+1, c :: cs =>
    if pat ≠ [] && ciPrefix pat (c :: cs) then
      rep ++ replAllCIGo pat rep f (List.drop pat.length (c :: cs))
    else
      c :: replAllCIGo pat rep f cs

def replAllCI (pat rep s : Chars) : Chars := replAllCIGo pat rep s.length s

/- ===== Constants of the worker (src/src/index.ts, lines 22-36) ===== -/

def ANTHROPIC_API_VERSION : Chars := "2023-06-01".data

def CLAUDE_CODE_VERSION : Chars := "2.1.2".data

def REQUIRED_BETA_FLAGS : List Chars :=
  ["oauth-2025-04-20".data, "interleaved-thinking-2025-05-14".data]

/-- The identity phrase tested by injectSystemPrompt. -/
def identityPhrase : Chars := "You are Claude Code".data

/-- CLAUDE_CODE_SYSTEM_PROMPT; the apostrophe is written by code point. -/
def CLAUDE_CODE_SYSTEM_PROMPT : Chars :=
  "You are Claude Code, Anthropic".data ++ [Char.ofNat 39] ++ "s official CLI for Claude.".data

/-- TOOL_PREFIX, the namespacing tag put in front of tool names. -/
def toolTag : Chars := ['m', 'c', 'p', '_']

def litText : Chars := "text".data

def litToolUse : Chars := "tool_use".data

def litBearer : Chars := "Bearer".data

def litPOST : Chars := "POST".data

/- ===== The inbound body model ===== -/

/-- A block of the system sequence: the worker reads only the type and
text fields (other fields ride along unchanged through the object
spreads, so they are not modelled). -/
structure SBlock where
  type? : Option Chars
  text? : Option Chars
deriving DecidableEq

/-- The system field as the worker sees it: either a bare string or an
ordered sequence of blocks. -/
inductive SystemVal
  | str : Chars → SystemVal
  | arr : List SBlock → SystemVal
deriving DecidableEq

/-- A tool definition: the worker touches only its name. -/
structure Tool where
  name? : Option Chars
deriving DecidableEq

/-- A content block of a message: the worker touches only type and name. -/
structure CBlock where
  type? : Option Chars
  name? : Option Chars
deriving DecidableEq

/-- A message turn: the worker touches only its content sequence; a
missing or non-array content is modelled as none. -/
structure Msg where
  content? : Option (List CBlock)
deriving DecidableEq

/-- The parsed JSON body, restricted to the fields the worker reads:
system, tools, messages, stream.  none models an absent field (and, for
tools/messages, also a non-array value, which the Array.isArray guards
skip). -/
structure Body where
  system? : Option SystemVal
  tools? : Option (List Tool)
  messages? : Option (List Msg)
  stream : Bool
deriving DecidableEq

/- ===== injectSystemPrompt (lines 122-145) ===== -/

/-- block.text starts with the identity phrase (optional chaining: a
missing text is falsy). -/
def startsWithIdentity (b : SBlock) : Bool :=
  match b.text? with
  | some t => identityPhrase.isPrefixOf t
  | none => false

/-- injectSystemPrompt: normalize the system field to a block sequence
(an absent or empty-string system is falsy and becomes the empty
sequence; a bare string is wrapped) and prepend the identity block when
no block's text begins with the identity phrase. -/
def injectSystemPrompt (b : Body) : Body :=
  let sys0 : SystemVal :=
    match b.system? with
    | none => SystemVal.arr []
    | some (SystemVal.str s) => if s = [] then SystemVal.arr [] else SystemVal.str s
    | some (SystemVal.arr xs) => SystemVal.arr xs
  let sys1 : List SBlock :=
    match sys0 with
    | SystemVal.str s => [⟨some litText, some s⟩]
    | SystemVal.arr xs => xs
  let hasIdentity := sys1.any startsWithIdentity
  let sys2 := if hasIdentity then sys1 else ⟨some litText, some CLAUDE_CODE_SYSTEM_PROMPT⟩ :: sys1
  { b with system? := some (SystemVal.arr sys2) }

/- ===== sanitizeBody (lines 151-194) ===== -/

/-- The two chained replaces applied to a system text block. -/
def sanitizeText (t : Chars) : Chars :=
  replAllCI ("opencode".data) ("Claude".data) (replAll ("OpenCode".data) ("Claude Code".data) t)

/-- The per-block map over the system sequence: only nonempty text of a
text-typed block is rewritten. -/
def sanitizeSBlock (item : SBlock) : SBlock :=
  match item.type?, item.text? with
  | some ty, some t =>
    if ty = litText && t ≠ [] then { item with text? := some (sanitizeText t) } else item
  | _, _ => item

/-- The per-tool map: a truthy name gets the tag put in front, a missing
or empty name is kept as it is. -/
def nsTool (tool : Tool) : Tool :=
  match tool.name? with
  | some n => if n = [] then tool else { tool with name? := some (toolTag ++ n) }
  | none => tool

/-- The per-content-block map: only tool-use blocks with a truthy name
are renamed. -/
def nsCBlock (blk : CBlock) : CBlock :=
  if blk.type? = some litToolUse then
    match blk.name? with
    | some n => if n = [] then blk else { blk with name? := some (toolTag ++ n) }
    | none => blk
  else blk

def nsMsg (m : Msg) : Msg :=
  match m.content? with
  | some blocks => { m with content? := some (blocks.map nsCBlock) }
  | none => m

/-- sanitizeBody: rewrite system text blocks, tag tool definition names,
tag tool-use block names inside messages. -/
def sanitizeBody (b : Body) : Body :=
  let b1 :=
    match b.system? with
    | some (SystemVal.arr xs) => { b with system? := some (SystemVal.arr (xs.map sanitizeSBlock)) }
    | _ => b
  let b2 :=
    match b1.tools? with
    | some ts => { b1 with tools? := some (ts.map nsTool) }
    | none => b1
  match b2.messages? with
  | some ms => { b2 with messages? := some (ms.map nsMsg) }
  | none => b2

/- ===== buildHeaders (lines 200-216) ===== -/

/-- First-occurrence deduplication, the order a JavaScript Set iterates
in. -/
def firstDedup : List Chars → List Chars
  | [] => []
  | x :: xs => x :: (firstDedup xs).filter (fun y => y ≠ x)

/-- The incoming anthropic-beta header split on commas, trimmed, with
empty entries dropped (an absent or empty header is falsy and yields the
empty list). -/
def incomingBetasList (incomingBeta : Option Chars) : List Chars :=
  match incomingBeta with
  | some s =>
    if s = [] then []
    else ((splitOn1 ',' s).map jsTrim).filter (fun b => b ≠ [])
  | none => []

/-- The deduplicated union of the required beta flags and the incoming
ones, required flags first. -/
def mergedBetaList (incomingBeta : Option Chars) : List Chars :=
  firstDedup (REQUIRED_BETA_FLAGS ++ incomingBetasList incomingBeta)

def joinComma : List Chars → Chars
  | [] => []
  | [x] => x
  | x :: y :: ys => x ++ ',' :: joinComma (y :: ys)

/-- buildHeaders: the outbound header set, as name-value pairs in the
order they are set.  No x-api-key header is ever set. -/
def buildHeaders (accessToken version : Chars) (incomingBeta : Option Chars) :
    List (Chars × Chars) :=
  [("Authorization".data, "Bearer ".data ++ accessToken),
   ("Content-Type".data, "application/json".data),
   ("anthropic-version".data, ANTHROPIC_API_VERSION),
   ("anthropic-beta".data, joinComma (mergedBetaList incomingBeta)),
   ("User-Agent".data, "claude-cli/".data ++ version ++ " (external, cli)".data)]

/- ===== validateAuth (lines 221-238) ===== -/

/-- The Authorization-header branch of validateAuth: the header value is
split on spaces and the first two fields are destructured; a missing
header (none) and an empty header value are both falsy and skip the
check. -/
def bearerAccept (authHeader : Option Chars) (secret : Chars) : Bool :=
  match authHeader with
  | some ah =>
    if ah = [] then false
    else
      match splitOn1 ' ' ah with
      | ty :: tok :: _ => ty = litBearer && tok = secret
      | _ => false
  | none => false

/-- The x-api-key branch of validateAuth. -/
def apiKeyAccept (apiKey : Option Chars) (secret : Chars) : Bool :=
  match apiKey with
  | some k => k = secret
  | none => false

/-- validateAuth: the Authorization check, falling through to the
x-api-key check. -/
def validateAuth (authHeader apiKey : Option Chars) (secret : Chars) : Bool :=
  bearerAccept authHeader secret || apiKeyAccept apiKey secret

/- ===== Token lifecycle (lines 38-117) ===== -/

structure TokenData where
  accessToken : Chars
  refreshToken : Chars
  expiresAt : Int
deriving DecidableEq

/-- The JSON payload of a successful refresh exchange. -/
structure TokenResp where
  access_token : Chars
  refresh_token : Chars
  expires_in : Nat
deriving DecidableEq

/-- Oracle for the one refresh call a request can make: either the
provider answers success with a token payload, or it answers a
non-success status with a body text. -/
inductive RefreshResult
  | ok : TokenResp → RefreshResult
  | err : Nat → Chars → RefreshResult
deriving DecidableEq

/-- The thrown error of a failed refresh, with its message text. -/
structure RefreshErr where
  message : Chars
deriving DecidableEq

def refreshFailMsg (status : Nat) (body : Chars) : Chars :=
  "Token refresh failed: ".data ++ natStr status ++ ' ' :: body

/-- refreshAccessToken: the exchange sends the refresh token and client
identifier; the oracle decides the outcome.  On a non-success status the
thrown error carries the status and body; on success the new record
expires now plus the provider-reported lifetime in milliseconds. -/
def refreshAccessToken (refreshToken clientId : Chars) (res : RefreshResult)
    (now : Int) : Except RefreshErr TokenData :=
  match refreshToken, clientId, res with
  | _, _, RefreshResult.err st b => Except.error ⟨refreshFailMsg st b⟩
  | _, _, RefreshResult.ok d =>
    Except.ok ⟨d.access_token, d.refresh_token, now + (d.expires_in : Int) * 1000⟩

/-- What a call of the external world does, in order. -/
inductive Effect
  | storeGet
  | storePut
  | tokenRefreshCall
  | versionLookupCall
  | upstreamForwardCall
deriving DecidableEq

/-- Result of getValidToken: the token or the thrown error, the store
contents afterwards, and the effect trace. -/
structure TokenFetchOut where
  result : Except RefreshErr Chars
  store : Option TokenData
  effects : List Effect

/-- The refresh token the exchange would send: the cached record's, else
the provisioned fallback (a JavaScript or-else, so an empty cached value
also falls back). -/
def chosenRefreshToken (envRefreshToken : Chars) (cached : Option TokenData) : Chars :=
  match cached with
  | some c => if c.refreshToken = [] then envRefreshToken else c.refreshToken
  | none => envRefreshToken

/-- getValidToken: read the cached record; if it is valid for more than
60 seconds return it unchanged with no further effect; otherwise refresh
with the selected refresh token and persist the new record on success. -/
def getValidToken (envRefreshToken clientId : Chars) (cached : Option TokenData)
    (now : Int) (res : RefreshResult) : TokenFetchOut :=
  match cached with
  | some c =>
    if c.expiresAt > now + 60000 then
      ⟨Except.ok c.accessToken, some c, [Effect.storeGet]⟩
    else
      match refreshAccessToken (chosenRefreshToken envRefreshToken cached) clientId res now with
      | Except.error e => ⟨Except.error e, cached, [Effect.storeGet, Effect.tokenRefreshCall]⟩
      | Except.ok nt =>
        ⟨Except.ok nt.accessToken, some nt,
          [Effect.storeGet, Effect.tokenRefreshCall, Effect.storePut]⟩
  | none =>
    match refreshAccessToken (chosenRefreshToken envRefreshToken cached) clientId res now with
    | Except.error e => ⟨Except.error e, cached, [Effect.storeGet, Effect.tokenRefreshCall]⟩
    | Except.ok nt =>
      ⟨Except.ok nt.accessToken, some nt,
        [Effect.storeGet, Effect.tokenRefreshCall, Effect.storePut]⟩

/- ===== Buffered response transform (line 309) ===== -/

def litNAME : Chars := ['"', 'n', 'a', 'm', 'e', '"']

def litMCP : Chars := ['"', 'm', 'c', 'p', '_']

def notQuote (c : Char) : Bool := c ≠ '"'

/-- Consume a literal from the front of a string. -/
def dropLit : Chars → Chars → Option Chars
  | [], s => some s
  | _ :: _, [] => none
  | l :: ls, c :: cs => if c = l then dropLit ls cs else none

/-- Match the regular expression `"name" ws* : ws* "mcp_ ([^"]+) "` at the
start of the string: on success give the captured name and the remainder
after the match. -/
def matchNamePat (s : Chars) : Option (Chars × Chars) :=
  match dropLit litNAME s with
  | none => none
  | some s1 =>
    match s1.dropWhile isJsWs with
    | ':' :: s3 =>
      match dropLit litMCP (s3.dropWhile isJsWs) with
      | none => none
      | some s5 =>
        let cap := s5.takeWhile notQuote
        match s5.dropWhile notQuote with
        | '"' :: rest => if cap = [] then none else some (cap, rest)
        | _ => none
    | _ => none

/-- The replacement text of the substitution: a normalized name field
holding the captured name. -/
def nameField (n : Chars) : Chars :=
  '"' :: 'n' :: 'a' :: 'm' :: 'e' :: '"' :: ':' :: ' ' :: '"' :: (n ++ ['"'])

/-- Left-to-right global substitution.  Fuel is the length of the string;
a match consumes at least one character, so fuel equal to the length
never runs out. -/
def stripGo : Nat → Chars → Chars
  | 0, s => s
  | _+1, [] => []
  | f+1, c :: cs =>
    match matchNamePat (c :: cs) with
    | some (cap, rest) => nameField cap ++ stripGo f rest
    | none => c :: stripGo f cs

/-- The buffered response transform: replace every occurrence of a
tagged name field by the untagged one. -/
def stripToolNames (s : Chars) : Chars := stripGo s.length s

/- ===== Streaming response transform (lines 319-338) ===== -/

/-- A UTF-8 continuation byte. -/
def contByte (b : Nat) : Bool := decide (0x80 ≤ b ∧ b < 0xC0)

/-- Number of continuation bytes demanded by a lead byte; none for a
byte that cannot start a sequence. -/
def leadLen (b : Nat) : Option Nat :=
  if b < 0x80 then some 0
  else if 0xC2 ≤ b ∧ b ≤ 0xDF then some 1
  else if 0xE0 ≤ b ∧ b ≤ 0xEF then some 2
  else if 0xF0 ≤ b ∧ b ≤ 0xF4 then some 3
  else none

/-- UTF-8 encoding of one character. -/
def encChar (c : Char) : List Nat :=
  let n := c.toNat
  if n < 0x80 then [n]
  else if n < 0x800 then [0xC0 + n / 0x40, 0x80 + n % 0x40]
  else if n < 0x10000 then
    [0xE0 + n / 0x1000, 0x80 + (n / 0x40) % 0x40, 0x80 + n % 0x40]
  else
    [0xF0 + n / 0x40000, 0x80 + (n / 0x1000) % 0x40, 0x80 + (n / 0x40) % 0x40, 0x80 + n % 0x40]

/-- UTF-8 encoding of a string (the TextEncoder). -/
def encStr : Chars → List Nat
  | [] => []
  | c :: cs => encChar c ++ encStr cs

/-- Codepoint assembled from a lead byte demanding k continuations and
the continuation bytes themselves. -/
def asmChar (b k : Nat) (conts : List Nat) : Char :=
  let init := match k with
    | 1 => b - 0xC0
    | 2 => b - 0xE0
    | 3 => b - 0xF0
    | _ => b
  Char.ofNat (conts.foldl (fun a x => a * 0x40 + (x - 0x80)) init)

def replacementChar : Char := Char.ofNat 0xFFFD

/-- Incremental UTF-8 decoding: decode as many complete sequences as the
input holds and give back the trailing incomplete sequence as pending
bytes.  A byte that can belong to no sequence decodes to the replacement
character.  Fuel is the length of the input; each step consumes at least
one byte. -/
def decGo : Nat → List Nat → Chars × List Nat
  | 0, bs => ([], bs)
  | _+1, [] => ([], [])
  | f+1, b :: rest =>
    match leadLen b with
    | some 0 =>
      let (cs, p) := decGo f rest
      (Char.ofNat b :: cs, p)
    | some k =>
      let conts := rest.take k
      if conts.length = k ∧ conts.all contByte = true then
        let (cs, p) := decGo f (rest.drop k)
        (asmChar b k conts :: cs, p)
      else if rest.length < k ∧ rest.all contByte = true then
        ([], b :: rest)
      else
        let (cs, p) := decGo f rest
        (replacementChar :: cs, p)
    | none =>
      let (cs, p) := decGo f rest
      (replacementChar :: cs, p)

def decodeBytes (bs : List Nat) : Chars × List Nat := decGo bs.length bs

/-- One stateful decoder step (decode with the stream flag): the pending
bytes of the previous step are put in front of the new chunk. -/
def decStep (pending chunk : List Nat) : Chars × List Nat :=
  decodeBytes (pending ++ chunk)

/-- The pull loop of the transformed stream: one output chunk per input
chunk; each decoded text is substituted and re-encoded; decoder state
crosses chunk boundaries. -/
def tsrGo (pending : List Nat) : List (List Nat) → List (List Nat)
  | [] => []
  | ch :: rest =>
    let (txt, p) := decStep pending ch
    encStr (stripToolNames txt) :: tsrGo p rest

/-- transformStreamingResponse over the sequence of upstream chunks. -/
def transformStreamingResponse (chunks : List (List Nat)) : List (List Nat) :=
  tsrGo [] chunks

def listJoin : List (List Nat) → List Nat
  | [] => []
  | x :: xs => x ++ listJoin xs

/- ===== handleMessages (lines 243-314) ===== -/

/-- The inbound request as the messages handler reads it: method, the two
auth headers, the incoming beta header, and the outcome of parsing the
body (none models a body that is not valid JSON). -/
structure Req where
  method : Chars
  authHeader : Option Chars
  apiKeyHeader : Option Chars
  betaHeader : Option Chars
  bodyJson : Option Body

/-- Deployment configuration read by the handler. -/
structure EnvCfg where
  proxySecret : Chars
  refreshTokenFallback : Chars
  clientId : Chars

/-- Oracle for the external calls a request can make: the cached store
record, the clock, the refresh outcome, the version lookup outcome (none
models a failed lookup, some the latest tag), and the upstream answer
(status, buffered text, and the chunk sequence when the answer has a
streaming body). -/
structure Oracle where
  cached : Option TokenData
  now : Int
  refreshRes : RefreshResult
  versionRes : Option Chars
  upstreamStatus : Nat
  upstreamText : Chars
  upstreamChunks : Option (List (List Nat))

/-- A response body: plain text, the stringified error object, the
transformed buffered upstream text, or the transformed stream. -/
inductive RespBody
  | text : Chars → RespBody
  | jsonError : Chars → Chars → RespBody
  | forwarded : Chars → RespBody
  | streamed : List (List Nat) → RespBody

structure Resp where
  status : Nat
  body : RespBody

/-- What handleMessages produces: the response, the effect trace, and
the forwarded upstream request (headers and transformed body) when one
was sent. -/
structure HandleOut where
  resp : Resp
  effects : List Effect
  outbound : Option (List (Chars × Chars) × Body)

/-- getClaudeCodeVersion collapsed over its oracle: the latest tag when
the lookup succeeded with a truthy tag, else the hardcoded fallback. -/
def versionOf (versionRes : Option Chars) : Chars :=
  match versionRes with
  | some latest => if latest = [] then CLAUDE_CODE_VERSION else latest
  | none => CLAUDE_CODE_VERSION

/-- handleMessages: reject non-POST, then unauthorized requests; obtain a
token (refreshing if needed) and fail with 500 when that throws; parse
the body and fail with 400 when it is invalid; transform the body, look
up the client version, build headers, forward, and transform the
response according to the stream flag of the transformed body. -/
def handleMessages (req : Req) (env : EnvCfg) (o : Oracle) : HandleOut :=
  if req.method ≠ litPOST then
    ⟨⟨405, RespBody.text ("Method not allowed".data)⟩, [], none⟩
  else if validateAuth req.authHeader req.apiKeyHeader env.proxySecret = false then
    ⟨⟨401, RespBody.text ("Unauthorized".data)⟩, [], none⟩
  else
    let tf := getValidToken env.refreshTokenFallback env.clientId o.cached o.now o.refreshRes
    match tf.result with
    | Except.error e =>
      ⟨⟨500, RespBody.jsonError ("Token error".data) ("Error: ".data ++ e.message)⟩,
        tf.effects, none⟩
    | Except.ok accessToken =>
      match req.bodyJson with
      | none => ⟨⟨400, RespBody.text ("Invalid JSON body".data)⟩, tf.effects, none⟩
      | some body0 =>
        let body := sanitizeBody (injectSystemPrompt body0)
        let version := versionOf o.versionRes
        let hdrs := buildHeaders accessToken version req.betaHeader
        let effs := tf.effects ++ [Effect.versionLookupCall, Effect.upstreamForwardCall]
        match body.stream, o.upstreamChunks with
        | true, some chunks =>
          ⟨⟨o.upstreamStatus, RespBody.streamed (transformStreamingResponse chunks)⟩,
            effs, some (hdrs, body)⟩
        | _, _ =>
          ⟨⟨o.upstreamStatus, RespBody.forwarded (stripToolNames o.upstreamText)⟩,
            effs, some (hdrs, body)⟩

/- ===== handleHealth (lines 362-387) ===== -/

/-- Outcome of the store read inside the health handler's try block. -/
inductive StoreRead
  | ok : Option TokenData → StoreRead
  | err : Chars → StoreRead

/-- Math.round(remaining / 1000 / 60) for a positive remaining span in
milliseconds: round half up, in minutes. -/
def roundMinutes (remaining : Int) : Int := (2 * remaining + 60000) / 120000

/-- The JSON payload of the health endpoint. -/
structure HealthBody where
  status : Chars
  service : Chars
  tokenStatus : Chars
deriving DecidableEq

/-- handleHealth: report only whether a record is cached and how long it
remains valid; the token strings themselves are never read. -/
def handleHealth (read : StoreRead) (now : Int) : HealthBody :=
  let tokenStatus : Chars :=
    match read with
    | StoreRead.err m => "error: ".data ++ m
    | StoreRead.ok none => "not cached (will use secret on first request)".data
    | StoreRead.ok (some c) =>
      let remaining := c.expiresAt - now
      if remaining > 0 then
        "valid (expires in ".data ++ natStr (roundMinutes remaining).toNat ++ " minutes)".data
      else
        "expired (will refresh on next request)".data
  ⟨"ok".data, "claude-max-proxy".data, tokenStatus⟩

/- ===== Derived notions used by the statements ===== -/

/-- Number of system blocks whose text is exactly the identity preamble. -/
def idPreambleCount (b : Body) : Nat :=
  match b.system? with
  | some (SystemVal.arr xs) =>
    xs.countP (fun blk => decide (blk.text? = some CLAUDE_CODE_SYSTEM_PROMPT))
  | _ => 0

/-- Whether the body, before any transformation, already carries a system
block (or a bare system string, which wrapping would turn into such a
block) whose text begins with the identity phrase. -/
def bodyHasIdentityStart (b : Body) : Bool :=
  match b.system? with
  | none => false
  | some (SystemVal.str s) => identityPhrase.isPrefixOf s
  | some (SystemVal.arr xs) => xs.any startsWithIdentity

/-- Join segments back with the separator (inverse of splitOn1). -/
def joinSep (sep : Char) : List Chars → Chars
  | [] => []
  | [x] => x
  | x :: y :: ys => x ++ sep :: joinSep sep (y :: ys)

/- ===== Shared lemmas ===== -/

theorem sanitizeBody_tools_eq (b : Body) :
    (sanitizeBody b).tools? = (b.tools?).map (fun ts => ts.map nsTool) := by
  rcases b with ⟨s, t, m, st⟩
  rcases s with _ | sv
  · rcases t with _ | ts <;> rcases m with _ | ms <;> simp [sanitizeBody]
  · rcases sv with s | xs <;> rcases t with _ | ts <;> rcases m with _ | ms <;>
      simp [sanitizeBody]

theorem sanitizeBody_messages_eq (b : Body) :
    (sanitizeBody b).messages? = (b.messages?).map (fun ms => ms.map nsMsg) := by
  rcases b with ⟨s, t, m, st⟩
  rcases s with _ | sv
  · rcases t with _ | ts <;> rcases m with _ | ms <;> simp [sanitizeBody]
  · rcases sv with s | xs <;> rcases t with _ | ts <;> rcases m with _ | ms <;>
      simp [sanitizeBody]

/- ===== Claim C3 ===== -/

/-- Claim C3: when the credential store holds a record whose expiry is
more than 60 seconds after the current time, getValidToken returns that
record's access credential unchanged, the store keeps the same record,
and the effect trace holds the single store read: no refresh call and no
store write happen. -/
theorem getValidToken_fastPath (envrt cid : Chars) (c : TokenData) (now : Int)
    (res : RefreshResult) (h : c.expiresAt > now + 60000) :
    getValidToken envrt cid (some c) now res =
      ⟨Except.ok c.accessToken, some c, [Effect.storeGet]⟩ ∧
    Effect.tokenRefreshCall ∉ (getValidToken envrt cid (some c) now res).effects ∧
    Effect.storePut ∉ (getValidToken envrt cid (some c) now res).effects := by
  have he : getValidToken envrt cid (some c) now res =
      ⟨Except.ok c.accessToken, some c, [Effect.storeGet]⟩ := by
    simp [getValidToken, h]
  refine ⟨he, ?_, ?_⟩ <;> rw [he] <;> simp

/-- Witness for C3: a record expiring ten minutes past a zero clock. -/
theorem getValidToken_fastPath_witness :
    getValidToken [] [] (some ⟨['a'], ['r'], 600000⟩) 0 (RefreshResult.err 500 []) =
      ⟨Except.ok ['a'], some ⟨['a'], ['r'], 600000⟩, [Effect.storeGet]⟩ :=
  (getValidToken_fastPath [] [] ⟨['a'], ['r'], 600000⟩ 0 (RefreshResult.err 500 [])
    (by decide)).1

/- ===== Claim C4 ===== -/

/-- Claim C4: with no cached record and a refusing refresh endpoint,
getValidToken fails with an error carrying the upstream status and body
text, the messages handler answers 500 with the stringified error object,
and nothing is forwarded upstream. -/
theorem handleMessages_refreshFail (req : Req) (env : EnvCfg) (o : Oracle)
    (st : Nat) (b : Chars)
    (hm : req.method = litPOST)
    (ha : validateAuth req.authHeader req.apiKeyHeader env.proxySecret = true)
    (hc : o.cached = none)
    (hr : o.refreshRes = RefreshResult.err st b) :
    (getValidToken env.refreshTokenFallback env.clientId o.cached o.now o.refreshRes).result
      = Except.error ⟨refreshFailMsg st b⟩ ∧
    (handleMessages req env o).resp.status = 500 ∧
    (handleMessages req env o).resp.body
      = RespBody.jsonError ("Token error".data) ("Error: ".data ++ refreshFailMsg st b) ∧
    (handleMessages req env o).outbound = none ∧
    Effect.upstreamForwardCall ∉ (handleMessages req env o).effects := by
  have hg : getValidToken env.refreshTokenFallback env.clientId o.cached o.now o.refreshRes =
      ⟨Except.error ⟨refreshFailMsg st b⟩, none,
        [Effect.storeGet, Effect.tokenRefreshCall]⟩ := by
    simp [getValidToken, hc, hr, refreshAccessToken]
  have hh : handleMessages req env o =
      ⟨⟨500, RespBody.jsonError ("Token error".data) ("Error: ".data ++ refreshFailMsg st b)⟩,
        [Effect.storeGet, Effect.tokenRefreshCall], none⟩ := by
    simp [handleMessages, hm, ha, hg]
  refine ⟨by rw [hg], ?_, ?_, ?_, ?_⟩ <;> rw [hh] <;> simp

/-- Witness for C4: POST with the matching api key, empty store, refresh
endpoint answering status 403 with body text denied. -/
theorem handleMessages_refreshFail_witness :
    (handleMessages ⟨litPOST, none, some ['s'], none, none⟩ ⟨['s'], ['r'], ['c']⟩
      ⟨none, 0, RefreshResult.err 403 ("denied".data), none, 200, [], none⟩).resp.status = 500 ∧
    Effect.upstreamForwardCall ∉
      (handleMessages ⟨litPOST, none, some ['s'], none, none⟩ ⟨['s'], ['r'], ['c']⟩
        ⟨none, 0, RefreshResult.err 403 ("denied".data), none, 200, [], none⟩).effects := by
  have h := handleMessages_refreshFail ⟨litPOST, none, some ['s'], none, none⟩
    ⟨['s'], ['r'], ['c']⟩
    ⟨none, 0, RefreshResult.err 403 ("denied".data), none, 200, [], none⟩
    403 ("denied".data) rfl (by decide) rfl rfl
  exact ⟨h.2.1, h.2.2.2.2⟩

/- ===== Claim C9 ===== -/

/-- Claim C9: the health payload depends only on the presence of a cached
record and its expiry instant, never on the credential strings: two store
states differing only in the access and refresh strings produce the same
payload. -/
theorem handleHealth_noLeak (a1 r1 a2 r2 : Chars) (e now : Int) :
    handleHealth (StoreRead.ok (some ⟨a1, r1, e⟩)) now =
      handleHealth (StoreRead.ok (some ⟨a2, r2, e⟩)) now := rfl

/- ===== Claim C10 ===== -/

/-- Claim C10: sanitizeBody maps the per-tool rename over the tools
sequence, and that rename keeps a definition with a missing or empty
name completely unchanged: only truthy names get the tag. -/
theorem sanitizeBody_falsyToolName (b : Body) (ts : List Tool) (h : b.tools? = some ts) :
    (sanitizeBody b).tools? = some (ts.map nsTool) ∧
    (∀ tool ∈ ts, tool.name? = none ∨ tool.name? = some [] → nsTool tool = tool) := by
  constructor
  · rw [sanitizeBody_tools_eq, h]
    rfl
  · intro tool _ hf
    rcases hf with hf | hf <;> simp [nsTool, hf]

/-- Witness for C10: a tools sequence with an empty name, a missing name,
and a truthy name. -/
theorem sanitizeBody_falsyToolName_witness :
    (sanitizeBody ⟨none, some [⟨some []⟩, ⟨none⟩, ⟨some ['a']⟩], none, false⟩).tools?
      = some [⟨some []⟩, ⟨none⟩, ⟨some ('m' :: 'c' :: 'p' :: '_' :: ['a'])⟩] ∧
    nsTool ⟨some []⟩ = ⟨some []⟩ ∧ nsTool ⟨none⟩ = ⟨none⟩ := by
  have h := sanitizeBody_falsyToolName ⟨none, some [⟨some []⟩, ⟨none⟩, ⟨some ['a']⟩], none, false⟩
    [⟨some []⟩, ⟨none⟩, ⟨some ['a']⟩] rfl
  refine ⟨?_, ?_, ?_⟩
  · rw [h.1]
    decide
  · exact h.2 ⟨some []⟩ (by decide) (Or.inr rfl)
  · exact h.2 ⟨none⟩ (by decide) (Or.inl rfl)

/- ===== Claim C8 ===== -/

theorem mem_firstDedup (x : Chars) (l : List Chars) : x ∈ firstDedup l ↔ x ∈ l := by
  induction l with
  | nil => simp [firstDedup]
  | cons a as ih =>
    by_cases hx : x = a
    · subst hx
      simp [firstDedup]
    · simp [firstDedup, List.mem_filter, ih, hx]

theorem nodup_firstDedup (l : List Chars) : (firstDedup l).Nodup := by
  induction l with
  | nil => simp [firstDedup]
  | cons a as ih =>
    rw [firstDedup, List.nodup_cons]
    constructor
    · intro hmem
      rcases List.mem_filter.mp hmem with ⟨_, hne⟩
      simp at hne
    · exact ih.filter _

theorem required_prefix_merged (inc : Option Chars) :
    REQUIRED_BETA_FLAGS <+: mergedBetaList inc := by
  rw [mergedBetaList, REQUIRED_BETA_FLAGS]
  rw [List.cons_append, List.cons_append, firstDedup, firstDedup]
  rw [List.filter_cons_of_pos (by decide)]
  exact ⟨_, rfl⟩

/-- Claim C8: buildHeaders never sets an x-api-key header, and the
capability-flags value is the comma join of a duplicate-free list that
starts with the two mandatory flags, holds every caller-supplied flag,
and holds nothing else. -/
theorem buildHeaders_spec (tok version : Chars) (inc : Option Chars) :
    (∀ v, ("x-api-key".data, v) ∉ buildHeaders tok version inc) ∧
    ("anthropic-beta".data, joinComma (mergedBetaList inc)) ∈ buildHeaders tok version inc ∧
    (mergedBetaList inc).Nodup ∧
    REQUIRED_BETA_FLAGS <+: mergedBetaList inc ∧
    (∀ x ∈ incomingBetasList inc, x ∈ mergedBetaList inc) ∧
    (∀ x ∈ mergedBetaList inc, x ∈ REQUIRED_BETA_FLAGS ∨ x ∈ incomingBetasList inc) := by
  refine ⟨?_, ?_, ?_, required_prefix_merged inc, ?_, ?_⟩
  · intro v
    simp +decide [buildHeaders, Prod.ext_iff]
  · simp [buildHeaders]
  · exact nodup_firstDedup _
  · intro x hx
    rw [mergedBetaList]
    exact (mem_firstDedup x _).mpr (List.mem_append.mpr (Or.inr hx))
  · intro x hx
    rw [mergedBetaList] at hx
    exact List.mem_append.mp ((mem_firstDedup x _).mp hx)

/-- Witness for C8: a caller-supplied header with spaces, an empty entry
and a repeat of a mandatory flag. -/
theorem buildHeaders_spec_witness :
    ("b".data ∈ mergedBetaList (some ((" a ,oauth-2025-04-20, ,b").data))) ∧
    REQUIRED_BETA_FLAGS <+: mergedBetaList (some ((" a ,oauth-2025-04-20, ,b").data)) := by
  have h := buildHeaders_spec [] [] (some ((" a ,oauth-2025-04-20, ,b").data))
  exact ⟨h.2.2.2.2.1 ("b".data) (by decide), h.2.2.2.1⟩

/- ===== Claim C6 ===== -/

theorem splitOn1_ne_nil (sep : Char) (a : Chars) : splitOn1 sep a ≠ [] := by
  induction a with
  | nil => simp [splitOn1]
  | cons c cs ih =>
    rw [splitOn1]
    by_cases h : c = sep
    · simp [h]
    · rw [if_neg h]
      cases hs : splitOn1 sep cs <;> simp

theorem joinSep_splitOn1 (sep : Char) (a : Chars) :
    joinSep sep (splitOn1 sep a) = a := by
  induction a with
  | nil => rfl
  | cons c cs ih =>
    by_cases h : c = sep
    · subst h
      rw [splitOn1, if_pos rfl]
      cases hs : splitOn1 c cs with
      | nil => exact absurd hs (splitOn1_ne_nil c cs)
      | cons t ts =>
        rw [hs] at ih
        rw [joinSep]
        simpa using ih
    · rw [splitOn1, if_neg h]
      cases hs : splitOn1 sep cs with
      | nil => exact absurd hs (splitOn1_ne_nil sep cs)
      | cons t ts =>
        rw [hs] at ih
        cases ts with
        | nil =>
          rw [joinSep] at ih ⊢
          rw [ih]
        | cons y ys =>
          rw [joinSep] at ih ⊢
          rw [List.cons_append, ih]

theorem splitOn1_sep_not_mem (sep : Char) (a : Chars) :
    ∀ x ∈ splitOn1 sep a, sep ∉ x := by
  induction a with
  | nil =>
    intro x hx
    simp [splitOn1] at hx
    subst hx
    simp
  | cons c cs ih =>
    intro x hx
    by_cases h : c = sep
    · subst h
      rw [splitOn1, if_pos rfl] at hx
      rcases List.mem_cons.mp hx with rfl | hx
      · simp
      · exact ih x hx
    · rw [splitOn1, if_neg h] at hx
      cases hs : splitOn1 sep cs with
      | nil => exact absurd hs (splitOn1_ne_nil sep cs)
      | cons t ts =>
        rw [hs] at hx
        rcases List.mem_cons.mp hx with rfl | hx
        · intro hmem
          rcases List.mem_cons.mp hmem with rfl | hmem
          · exact h rfl
          · have ht : t ∈ splitOn1 sep cs := by
              rw [hs]
              exact List.mem_cons_self t ts
            exact ih t ht hmem
        · have hx2 : x ∈ splitOn1 sep cs := by
            rw [hs]
            exact List.mem_cons.mpr (Or.inr hx)
          exact ih x hx2

theorem splitOn1_seg_append (sep : Char) (seg rest : Chars)
    (h : sep ∉ seg) : splitOn1 sep (seg ++ sep :: rest) = seg :: splitOn1 sep rest := by
  induction seg with
  | nil => simp [splitOn1]
  | cons c cs ih =>
    have hc : c ≠ sep := fun he => h (he ▸ List.mem_cons_self c cs)
    have hcs : sep ∉ cs := fun hm => h (List.mem_cons.mpr (Or.inr hm))
    rw [List.cons_append, splitOn1, if_neg hc, ih hcs]

theorem splitOn1_no_sep (sep : Char) (seg : Chars) (h : sep ∉ seg) :
    splitOn1 sep seg = [seg] := by
  induction seg with
  | nil => rfl
  | cons c cs ih =>
    have hc : c ≠ sep := fun he => h (he ▸ List.mem_cons_self c cs)
    have hcs : sep ∉ cs := fun hm => h (List.mem_cons.mpr (Or.inr hm))
    rw [splitOn1, if_neg hc, ih hcs]

theorem bearerAccept_iff (a secret : Chars) :
    bearerAccept (some a) secret = true ↔
      ∃ r, a = litBearer ++ ' ' :: secret ++ r ∧ ' ' ∉ secret ∧
        (r = [] ∨ ∃ r2, r = ' ' :: r2) := by
  constructor
  · intro hacc
    rw [bearerAccept] at hacc
    by_cases hnil : a = []
    · rw [if_pos hnil] at hacc
      exact absurd hacc (by simp)
    · rw [if_neg hnil] at hacc
      cases hs : splitOn1 ' ' a with
      | nil => exact absurd hs (splitOn1_ne_nil ' ' a)
      | cons ty tks =>
        cases tks with
        | nil =>
          rw [hs] at hacc
          exact absurd hacc (by simp)
        | cons tok rest =>
          rw [hs] at hacc
          simp only [Bool.and_eq_true, decide_eq_true_eq] at hacc
          obtain ⟨hty, htok⟩ := hacc
          have hjoin := joinSep_splitOn1 ' ' a
          rw [hs, hty, htok] at hjoin
          have hsecret : ' ' ∉ secret := by
            have : tok ∈ splitOn1 ' ' a := by
              rw [hs]
              exact List.mem_cons.mpr (Or.inr (List.mem_cons_self tok rest))
            exact htok ▸ splitOn1_sep_not_mem ' ' a tok this
          cases rest with
          | nil =>
            refine ⟨[], ?_, hsecret, Or.inl rfl⟩
            rw [joinSep, joinSep] at hjoin
            simp [hjoin.symm]
          | cons y ys =>
            refine ⟨' ' :: joinSep ' ' (y :: ys), ?_, hsecret, Or.inr ⟨_, rfl⟩⟩
            rw [joinSep, joinSep] at hjoin
            rw [← hjoin]
            simp
  · rintro ⟨r, ha, hsec, hr⟩
    have hBnosp : ' ' ∉ litBearer := by decide
    have hnil : a ≠ [] := by
      rw [ha]
      simp [litBearer]
    rw [bearerAccept, if_neg hnil]
    have hsplit : splitOn1 ' ' a = litBearer :: splitOn1 ' ' (secret ++ r) := by
      rw [ha]
      rw [show litBearer ++ ' ' :: secret ++ r = litBearer ++ ' ' :: (secret ++ r) by simp]
      exact splitOn1_seg_append ' ' litBearer (secret ++ r) hBnosp
    rcases hr with rfl | ⟨r2, rfl⟩
    · rw [List.append_nil] at hsplit
      rw [hsplit, splitOn1_no_sep ' ' secret hsec]
      simp
    · rw [hsplit, splitOn1_seg_append ' ' secret r2 hsec]
      simp

/-- Counterexample to claim C6 as stated: the header value Bearer right
extra is not of the form Bearer followed by the secret, yet validateAuth
accepts it with secret right. -/
theorem validateAuth_counterexample :
    validateAuth (some (("Bearer right extra").data)) none (("right").data) = true ∧
    ("Bearer right extra").data ≠ litBearer ++ ' ' :: ("right").data := by decide

/-- Claim C6 (amended): validateAuth is pure and accepts exactly when
either the Authorization value is the word Bearer, a space, the secret,
and then nothing or a space-led remainder (the secret containing no
space), or the x-api-key value equals the secret; Bearer wrong with
secret right is rejected, x-api-key right is accepted. -/
theorem validateAuth_spec (ah ak : Option Chars) (secret : Chars) :
    (validateAuth ah ak secret = true ↔
      ((∃ a, ah = some a ∧ ∃ r, a = litBearer ++ ' ' :: secret ++ r ∧ ' ' ∉ secret ∧
          (r = [] ∨ ∃ r2, r = ' ' :: r2)) ∨ ak = some secret)) ∧
    validateAuth (some (("Bearer wrong").data)) none (("right").data) = false ∧
    validateAuth none (some (("right").data)) (("right").data) = true := by
  refine ⟨?_, by decide, by decide⟩
  rw [validateAuth, Bool.or_eq_true]
  constructor
  · rintro (hb | hk)
    · cases ah with
      | none => exact absurd hb (by simp [bearerAccept])
      | some a => exact Or.inl ⟨a, rfl, (bearerAccept_iff a secret).mp hb⟩
    · cases ak with
      | none => exact absurd hk (by simp [apiKeyAccept])
      | some k =>
        simp only [apiKeyAccept, decide_eq_true_eq] at hk
        exact Or.inr (by rw [hk])
  · rintro (⟨a, rfl, hex⟩ | hk)
    · exact Or.inl ((bearerAccept_iff a secret).mpr hex)
    · rw [hk]
      exact Or.inr (by simp [apiKeyAccept])

/- ===== Claim C5 ===== -/

theorem identityPhrase_prefix_preamble : identityPhrase <+: CLAUDE_CODE_SYSTEM_PROMPT := by
  decide

theorem startsWithIdentity_of_text (t : Chars) (b : SBlock) (hb : b.text? = some t) :
    startsWithIdentity b = identityPhrase.isPrefixOf t := by
  simp only [startsWithIdentity, hb]

theorem startsWithIdentity_preamble :
    startsWithIdentity ⟨some litText, some CLAUDE_CODE_SYSTEM_PROMPT⟩ = true := by decide

theorem no_preamble_of_any_false (xs : List SBlock) (h : xs.any startsWithIdentity = false) :
    ∀ a ∈ xs, ¬a.text? = some CLAUDE_CODE_SYSTEM_PROMPT := by
  intro a ha he
  have hswi : startsWithIdentity a = true := by
    rw [startsWithIdentity_of_text _ a he, List.isPrefixOf_iff_prefix]
    exact identityPhrase_prefix_preamble
  rw [List.any_eq_false] at h
  exact h a ha hswi

/-- Counterexample to claim C5 as stated: a body whose system sequence
already holds two identity-preamble blocks keeps both of them through two
applications of identity injection, so the result holds two, not exactly
one, such blocks. -/
theorem injectSystemPrompt_counterexample :
    idPreambleCount (injectSystemPrompt (injectSystemPrompt
      ⟨some (SystemVal.arr [⟨some litText, some CLAUDE_CODE_SYSTEM_PROMPT⟩,
        ⟨some litText, some CLAUDE_CODE_SYSTEM_PROMPT⟩]), none, none, false⟩)) = 2 := by
  decide

/-- Claim C5 (amended): identity injection is idempotent (the second
application prepends nothing, because a block beginning with the identity
phrase is present after the first), and when the original body has no
system block beginning with the identity phrase, the twice-injected body
holds exactly one block whose text is the identity preamble. -/
theorem injectSystemPrompt_idem (b : Body) :
    injectSystemPrompt (injectSystemPrompt b) = injectSystemPrompt b ∧
    (bodyHasIdentityStart b = false →
      idPreambleCount (injectSystemPrompt (injectSystemPrompt b)) = 1) := by
  rcases b with ⟨s, t, m, st⟩
  have hidem : injectSystemPrompt (injectSystemPrompt ⟨s, t, m, st⟩) =
      injectSystemPrompt ⟨s, t, m, st⟩ := by
    rcases s with _ | sv
    · simp [injectSystemPrompt, startsWithIdentity_preamble]
    · rcases sv with v | xs
      · by_cases hv : v = []
        · subst hv
          simp [injectSystemPrompt, startsWithIdentity_preamble]
        · by_cases hid : identityPhrase <+: v
          · simp [injectSystemPrompt, hv, startsWithIdentity, hid]
          · simp [injectSystemPrompt, hv, startsWithIdentity, hid,
              startsWithIdentity_preamble, identityPhrase_prefix_preamble]
      · by_cases hid : ∃ x ∈ xs, startsWithIdentity x = true
        · simp [injectSystemPrompt, hid]
        · simp [injectSystemPrompt, hid, startsWithIdentity_preamble]
  refine ⟨hidem, ?_⟩
  intro h
  rw [hidem]
  rcases s with _ | sv
  · simp [injectSystemPrompt, idPreambleCount, List.countP_cons]
  · rcases sv with v | xs
    · simp only [bodyHasIdentityStart] at h
      by_cases hv : v = []
      · subst hv
        simp [injectSystemPrompt, idPreambleCount, List.countP_cons]
      · have hnp : ¬identityPhrase <+: v := by
          intro hp
          rw [← List.isPrefixOf_iff_prefix, h] at hp
          exact Bool.false_ne_true hp
        simp [injectSystemPrompt, hv, startsWithIdentity, hnp, idPreambleCount,
          List.countP_cons]
        intro he
        rw [he] at hnp
        exact hnp identityPhrase_prefix_preamble
    · simp only [bodyHasIdentityStart] at h
      have hnp : ¬∃ x ∈ xs, startsWithIdentity x = true := by
        rw [← List.any_eq_true]
        simp [h]
      simp [injectSystemPrompt, hnp, idPreambleCount, List.countP_cons]
      exact no_preamble_of_any_false xs h

/-- Witness for C5: a body whose system is a bare non-identity string. -/
theorem injectSystemPrompt_idem_witness :
    bodyHasIdentityStart ⟨some (SystemVal.str ['h', 'i']), none, none, false⟩ = false ∧
    idPreambleCount (injectSystemPrompt (injectSystemPrompt
      ⟨some (SystemVal.str ['h', 'i']), none, none, false⟩)) = 1 :=
  ⟨by decide, (injectSystemPrompt_idem ⟨some (SystemVal.str ['h', 'i']), none, none, false⟩).2
    (by decide)⟩

/- ===== Claim C2 ===== -/

theorem takeWhile_all_append (p : Char → Bool) (l r : Chars) (h : ∀ a ∈ l, p a = true) :
    (l ++ r).takeWhile p = l ++ r.takeWhile p := by
  induction l with
  | nil => simp
  | cons c cs ih =>
    have hc : p c = true := h c (List.mem_cons_self c cs)
    rw [List.cons_append, List.takeWhile_cons, hc]
    simp only [if_true]
    rw [ih (fun a ha => h a (List.mem_cons.mpr (Or.inr ha))), List.cons_append]

theorem dropWhile_all_append (p : Char → Bool) (l r : Chars) (h : ∀ a ∈ l, p a = true) :
    (l ++ r).dropWhile p = r.dropWhile p := by
  induction l with
  | nil => simp
  | cons c cs ih =>
    have hc : p c = true := h c (List.mem_cons_self c cs)
    rw [List.cons_append, List.dropWhile_cons, hc]
    simp only [if_true]
    exact ih (fun a ha => h a (List.mem_cons.mpr (Or.inr ha)))

theorem matchNamePat_tagged (n : Chars) (hne : n ≠ []) (hq : ∀ c ∈ n, c ≠ '"') :
    matchNamePat (nameField (toolTag ++ n)) = some (n, []) := by
  have hq' : ∀ a ∈ n, notQuote a = true := by
    intro a ha
    simpa [notQuote] using hq a ha
  have htw : (n ++ ['"']).takeWhile notQuote = n := by
    rw [takeWhile_all_append notQuote n ['"'] hq']
    simp [List.takeWhile_cons, notQuote]
  have hdw : (n ++ ['"']).dropWhile notQuote = ['"'] := by
    rw [dropWhile_all_append notQuote n ['"'] hq']
    simp [List.dropWhile_cons, notQuote]
  simp [nameField, toolTag, matchNamePat, dropLit, litNAME, litMCP, isJsWs,
    List.dropWhile_cons, htw, hdw, hne]

theorem stripGo_nil (f : Nat) : stripGo f [] = [] := by cases f <;> rfl

/-- Claim C2: for every truthy tool name, the request transformer maps a
tool definition name and a tool-use block name to the tag followed by the
name (mapping every tools entry and every message content block), and the
buffered response transform maps a name field holding the tagged name
back to a name field holding exactly the original name (names are free of
the quote character, as any name appearing literally inside a JSON name
field is). -/
theorem toolName_roundTrip (n : Chars) (hne : n ≠ []) (hq : ∀ c ∈ n, c ≠ '"') :
    nsTool ⟨some n⟩ = ⟨some (toolTag ++ n)⟩ ∧
    nsCBlock ⟨some litToolUse, some n⟩ = ⟨some litToolUse, some (toolTag ++ n)⟩ ∧
    (∀ b : Body, (sanitizeBody b).tools? = (b.tools?).map (fun ts => ts.map nsTool)) ∧
    (∀ b : Body, (sanitizeBody b).messages? = (b.messages?).map (fun ms => ms.map nsMsg)) ∧
    stripToolNames (nameField (toolTag ++ n)) = nameField n := by
  refine ⟨?_, ?_, sanitizeBody_tools_eq, sanitizeBody_messages_eq, ?_⟩
  · simp [nsTool, hne]
  · simp [nsCBlock, hne]
  · rw [stripToolNames]
    rw [show nameField (toolTag ++ n) =
      '"' :: ('n' :: 'a' :: 'm' :: 'e' :: '"' :: ':' :: ' ' :: '"' :: 'm' :: 'c' :: 'p' ::
        '_' :: (n ++ ['"'])) from by simp [nameField, toolTag]]
    rw [List.length_cons]
    rw [stripGo]
    rw [show matchNamePat ('"' :: 'n' :: 'a' :: 'm' :: 'e' :: '"' :: ':' :: ' ' :: '"' ::
        'm' :: 'c' :: 'p' :: '_' :: (n ++ ['"'])) = some (n, []) from by
      have h := matchNamePat_tagged n hne hq
      simpa [nameField, toolTag] using h]
    simp [stripGo_nil]

/-- Witness for C2: the tool name a round-trips through tagging and the
response substitution. -/
theorem toolName_roundTrip_witness :
    nsTool ⟨some ['a']⟩ = ⟨some (toolTag ++ ['a'])⟩ ∧
    stripToolNames (nameField (toolTag ++ ['a'])) = nameField ['a'] := by
  have h := toolName_roundTrip ['a'] (by decide) (by decide)
  exact ⟨h.1, h.2.2.2.2⟩

/- ===== Claim C1 ===== -/

theorem getValidToken_no_forward (envrt cid : Chars) (cached : Option TokenData)
    (now : Int) (res : RefreshResult) :
    Effect.upstreamForwardCall ∉ (getValidToken envrt cid cached now res).effects ∧
    Effect.versionLookupCall ∉ (getValidToken envrt cid cached now res).effects := by
  constructor <;>
  · rcases cached with _ | c
    · cases res <;> simp [getValidToken, refreshAccessToken]
    · by_cases hexp : c.expiresAt > now + 60000
      · simp [getValidToken, hexp]
      · cases res <;> simp [getValidToken, hexp, refreshAccessToken]

/-- Counterexample to claim C1 as stated: an authenticated POST whose
body is not valid JSON still triggers the token work first; with an empty
store and a refusing refresh endpoint the handler performs the refresh
exchange (a network call) and answers 500, not 400. -/
theorem handleMessages_badJson_counterexample :
    (handleMessages ⟨litPOST, none, some ['s'], none, none⟩ ⟨['s'], ['r'], ['c']⟩
      ⟨none, 0, RefreshResult.err 403 ['d'], none, 200, [], none⟩).resp.status = 500 ∧
    Effect.tokenRefreshCall ∈
      (handleMessages ⟨litPOST, none, some ['s'], none, none⟩ ⟨['s'], ['r'], ['c']⟩
        ⟨none, 0, RefreshResult.err 403 ['d'], none, 200, [], none⟩).effects := by
  decide

/-- Claim C1 (amended): for an authenticated POST whose body is not valid
JSON, token acquisition still runs first, reading the store and possibly
performing a refresh exchange and store write; when it fails the handler
answers 500, when it succeeds the handler answers 400 with the plain
invalid-body text; in every case no body transformation is applied and
neither the upstream forward nor the version lookup happens. -/
theorem handleMessages_badJson (req : Req) (env : EnvCfg) (o : Oracle)
    (hm : req.method = litPOST)
    (ha : validateAuth req.authHeader req.apiKeyHeader env.proxySecret = true)
    (hb : req.bodyJson = none) :
    (handleMessages req env o).outbound = none ∧
    Effect.upstreamForwardCall ∉ (handleMessages req env o).effects ∧
    Effect.versionLookupCall ∉ (handleMessages req env o).effects ∧
    (∀ e, (getValidToken env.refreshTokenFallback env.clientId o.cached o.now
        o.refreshRes).result = Except.error e →
      (handleMessages req env o).resp.status = 500) ∧
    (∀ tok, (getValidToken env.refreshTokenFallback env.clientId o.cached o.now
        o.refreshRes).result = Except.ok tok →
      (handleMessages req env o).resp = ⟨400, RespBody.text ("Invalid JSON body".data)⟩) := by
  have hlem := getValidToken_no_forward env.refreshTokenFallback env.clientId o.cached
    o.now o.refreshRes
  rcases hres : (getValidToken env.refreshTokenFallback env.clientId o.cached o.now
      o.refreshRes).result with e | tok
  · have hh : handleMessages req env o =
        ⟨⟨500, RespBody.jsonError ("Token error".data) ("Error: ".data ++ e.message)⟩,
          (getValidToken env.refreshTokenFallback env.clientId o.cached o.now
            o.refreshRes).effects, none⟩ := by
      simp [handleMessages, hm, ha, hres]
    rw [hh]
    refine ⟨rfl, hlem.1, hlem.2, fun e2 he2 => rfl, fun tok2 htok2 => ?_⟩
    exact absurd htok2 (by simp)
  · have hh : handleMessages req env o =
        ⟨⟨400, RespBody.text ("Invalid JSON body".data)⟩,
          (getValidToken env.refreshTokenFallback env.clientId o.cached o.now
            o.refreshRes).effects, none⟩ := by
      simp [handleMessages, hm, ha, hres, hb]
    rw [hh]
    refine ⟨rfl, hlem.1, hlem.2, fun e2 he2 => ?_, fun tok2 htok2 => rfl⟩
    exact absurd he2 (by simp)

/-- Witness for C1: authenticated POST, invalid body, fresh cached token:
the handler answers 400. -/
theorem handleMessages_badJson_witness :
    (handleMessages ⟨litPOST, none, some ['s'], none, none⟩ ⟨['s'], ['r'], ['c']⟩
      ⟨some ⟨['a'], ['r'], 600000⟩, 0, RefreshResult.err 500 [], none, 200, [], none⟩).resp
      = ⟨400, RespBody.text ("Invalid JSON body".data)⟩ := by
  have h := handleMessages_badJson ⟨litPOST, none, some ['s'], none, none⟩
    ⟨['s'], ['r'], ['c']⟩
    ⟨some ⟨['a'], ['r'], 600000⟩, 0, RefreshResult.err 500 [], none, 200, [], none⟩
    rfl (by decide) rfl
  exact h.2.2.2.2 ['a'] rfl

/- ===== Claim C7 ===== -/

theorem decGo_fuel (f1 : Nat) : ∀ (f2 : Nat) (bs : List Nat), bs.length ≤ f1 → bs.length ≤ f2 →
    decGo f1 bs = decGo f2 bs := by
  induction f1 with
  | zero =>
    intro f2 bs h1 h2
    have : bs = [] := List.length_eq_zero.mp (Nat.le_zero.mp h1)
    subst this
    cases f2 <;> rfl
  | succ g ih =>
    intro f2 bs h1 h2
    cases bs with
    | nil => cases f2 <;> rfl
    | cons b rest =>
      cases f2 with
      | zero => exact absurd h2 (by simp)
      | succ g2 =>
        rw [List.length_cons] at h1 h2
        have hr1 : rest.length ≤ g := Nat.lt_succ_iff.mp (Nat.lt_of_lt_of_le (Nat.lt_succ_self _) (by omega))
        have hr2 : rest.length ≤ g2 := by omega
        rw [decGo, decGo]
        cases hl : leadLen b with
        | none =>
          simp only [hl]
          rw [ih g2 rest hr1 hr2]
        | some k =>
          cases k with
          | zero =>
            simp only [hl]
            rw [ih g2 rest hr1 hr2]
          | succ k0 =>
            simp only [hl]
            rw [ih g2 (rest.drop (k0+1)) (by simp; omega) (by simp; omega)]
            rw [ih g2 rest hr1 hr2]

theorem decGo_step0 (b : Nat) (rest : List Nat) (hl : leadLen b = some 0) :
    decodeBytes (b :: rest) = (Char.ofNat b :: (decodeBytes rest).1, (decodeBytes rest).2) := by
  rw [decodeBytes, List.length_cons, decGo]
  simp only [hl]
  rw [decodeBytes]

theorem decGo_step_k (b : Nat) (k : Nat) (t rest : List Nat)
    (hl : leadLen b = some (k+1)) (ht : t.length = k+1) (hcont : t.all contByte = true) :
    decodeBytes (b :: (t ++ rest)) =
      (asmChar b (k+1) t :: (decodeBytes rest).1, (decodeBytes rest).2) := by
  rw [decodeBytes, List.length_cons, decGo]
  simp only [hl]
  have htake : (t ++ rest).take (k+1) = t := by
    rw [← ht]
    exact List.take_left t rest
  have hdrop : (t ++ rest).drop (k+1) = rest := by
    rw [← ht]
    exact List.drop_left t rest
  rw [htake, hdrop, if_pos ⟨ht, hcont⟩]
  have hfuel : decGo (t ++ rest).length rest = decGo rest.length rest := by
    apply decGo_fuel <;> simp
  rw [hfuel, decodeBytes]

theorem decGo_pending (b : Nat) (k : Nat) (t : List Nat)
    (hl : leadLen b = some (k+1)) (hlen : t.length < k+1) (hcont : t.all contByte = true) :
    decodeBytes (b :: t) = ([], b :: t) := by
  rw [decodeBytes, List.length_cons, decGo]
  simp only [hl]
  have htake : t.take (k+1) = t := List.take_of_length_le (by omega)
  rw [htake]
  rw [if_neg (by omega ∘ And.left)]
  rw [if_pos ⟨hlen, hcont⟩]

theorem char_toNat_lt (c : Char) : c.toNat < 0x110000 := by
  rcases c.valid with h | ⟨h1, h2⟩
  · exact Nat.lt_trans h (by norm_num)
  · exact h2

theorem decodeBytes_encChar_append (c : Char) (rest : List Nat) :
    decodeBytes (encChar c ++ rest) = (c :: (decodeBytes rest).1, (decodeBytes rest).2) := by
  have hv := char_toNat_lt c
  by_cases h1 : c.toNat < 0x80
  · rw [show encChar c = [c.toNat] from by rw [encChar, if_pos h1]]
    rw [List.cons_append, List.nil_append]
    rw [decGo_step0 c.toNat rest (by rw [leadLen, if_pos h1])]
    rw [Char.ofNat_toNat]
  · by_cases h2 : c.toNat < 0x800
    · rw [show encChar c = [0xC0 + c.toNat / 0x40, 0x80 + c.toNat % 0x40] from by
        rw [encChar, if_neg h1, if_pos h2]]
      rw [List.cons_append, List.cons_append, List.nil_append]
      rw [show (0x80 + c.toNat % 0x40) :: rest = [0x80 + c.toNat % 0x40] ++ rest from rfl]
      rw [decGo_step_k (0xC0 + c.toNat / 0x40) 0 [0x80 + c.toNat % 0x40] rest
        (by rw [leadLen, if_neg (by omega), if_pos (by omega)])
        (by simp)
        (by simp [contByte]; omega)]
      have hasm : asmChar (0xC0 + c.toNat / 0x40) 1 [0x80 + c.toNat % 0x40] = c := by
        rw [asmChar]
        simp only [List.foldl]
        rw [show (0xC0 + c.toNat / 0x40 - 0xC0) * 0x40 + (0x80 + c.toNat % 0x40 - 0x80)
            = c.toNat from by omega]
        exact Char.ofNat_toNat c
      rw [hasm]
    · by_cases h3 : c.toNat < 0x10000
      · rw [show encChar c = [0xE0 + c.toNat / 0x1000, 0x80 + (c.toNat / 0x40) % 0x40,
            0x80 + c.toNat % 0x40] from by rw [encChar, if_neg h1, if_neg h2, if_pos h3]]
        rw [List.cons_append, List.cons_append, List.cons_append, List.nil_append]
        rw [show (0x80 + (c.toNat / 0x40) % 0x40) :: (0x80 + c.toNat % 0x40) :: rest
            = [0x80 + (c.toNat / 0x40) % 0x40, 0x80 + c.toNat % 0x40] ++ rest from rfl]
        rw [decGo_step_k (0xE0 + c.toNat / 0x1000) 1
          [0x80 + (c.toNat / 0x40) % 0x40, 0x80 + c.toNat % 0x40] rest
          (by rw [leadLen, if_neg (by omega), if_neg (by omega), if_pos (by omega)])
          (by simp)
          (by simp [contByte]; omega)]
        have hasm : asmChar (0xE0 + c.toNat / 0x1000) 2
            [0x80 + (c.toNat / 0x40) % 0x40, 0x80 + c.toNat % 0x40] = c := by
          rw [asmChar]
          simp only [List.foldl]
          rw [show ((0xE0 + c.toNat / 0x1000 - 0xE0) * 0x40 +
              (0x80 + (c.toNat / 0x40) % 0x40 - 0x80)) * 0x40 + (0x80 + c.toNat % 0x40 - 0x80)
              = c.toNat from by omega]
          exact Char.ofNat_toNat c
        rw [hasm]
      · rw [show encChar c = [0xF0 + c.toNat / 0x40000, 0x80 + (c.toNat / 0x1000) % 0x40,
            0x80 + (c.toNat / 0x40) % 0x40, 0x80 + c.toNat % 0x40] from by
            rw [encChar, if_neg h1, if_neg h2, if_neg h3]]
        rw [List.cons_append, List.cons_append, List.cons_append, List.cons_append,
          List.nil_append]
        rw [show (0x80 + (c.toNat / 0x1000) % 0x40) :: (0x80 + (c.toNat / 0x40) % 0x40) ::
            (0x80 + c.toNat % 0x40) :: rest
            = [0x80 + (c.toNat / 0x1000) % 0x40, 0x80 + (c.toNat / 0x40) % 0x40,
               0x80 + c.toNat % 0x40] ++ rest from rfl]
        rw [decGo_step_k (0xF0 + c.toNat / 0x40000) 2
          [0x80 + (c.toNat / 0x1000) % 0x40, 0x80 + (c.toNat / 0x40) % 0x40,
           0x80 + c.toNat % 0x40] rest
          (by rw [leadLen, if_neg (by omega), if_neg (by omega), if_neg (by omega),
            if_pos (by omega)])
          (by simp)
          (by simp [contByte]; omega)]
        have hasm : asmChar (0xF0 + c.toNat / 0x40000) 3
            [0x80 + (c.toNat / 0x1000) % 0x40, 0x80 + (c.toNat / 0x40) % 0x40,
             0x80 + c.toNat % 0x40] = c := by
          rw [asmChar]
          simp only [List.foldl]
          rw [show (((0xF0 + c.toNat / 0x40000 - 0xF0) * 0x40 +
              (0x80 + (c.toNat / 0x1000) % 0x40 - 0x80)) * 0x40 +
              (0x80 + (c.toNat / 0x40) % 0x40 - 0x80)) * 0x40 + (0x80 + c.toNat % 0x40 - 0x80)
              = c.toNat from by omega]
          exact Char.ofNat_toNat c
        rw [hasm]

theorem decodeBytes_encChar_partial (c : Char) (j : Nat) (h1 : 1 ≤ j)
    (h2 : j < (encChar c).length) :
    decodeBytes ((encChar c).take j) = ([], (encChar c).take j) := by
  have hv := char_toNat_lt c
  by_cases hb1 : c.toNat < 0x80
  · rw [show encChar c = [c.toNat] from by rw [encChar, if_pos hb1]] at h2 ⊢
    simp at h2
    omega
  · by_cases hb2 : c.toNat < 0x800
    · rw [show encChar c = [0xC0 + c.toNat / 0x40, 0x80 + c.toNat % 0x40] from by
        rw [encChar, if_neg hb1, if_pos hb2]] at h2 ⊢
      simp at h2
      have hj : j = 1 := by omega
      subst hj
      rw [show List.take 1 [0xC0 + c.toNat / 0x40, 0x80 + c.toNat % 0x40]
          = (0xC0 + c.toNat / 0x40) :: [] from rfl]
      exact decGo_pending (0xC0 + c.toNat / 0x40) 0 []
        (by rw [leadLen, if_neg (by omega), if_pos (by omega)]) (by simp) (by simp)
    · by_cases hb3 : c.toNat < 0x10000
      · rw [show encChar c = [0xE0 + c.toNat / 0x1000, 0x80 + (c.toNat / 0x40) % 0x40,
            0x80 + c.toNat % 0x40] from by rw [encChar, if_neg hb1, if_neg hb2, if_pos hb3]]
          at h2 ⊢
        simp at h2
        have hl : leadLen (0xE0 + c.toNat / 0x1000) = some 2 := by
          rw [leadLen, if_neg (by omega), if_neg (by omega), if_pos (by omega)]
        rcases show j = 1 ∨ j = 2 from by omega with hj | hj <;> subst hj
        · rw [show List.take 1 [0xE0 + c.toNat / 0x1000, 0x80 + (c.toNat / 0x40) % 0x40,
              0x80 + c.toNat % 0x40] = (0xE0 + c.toNat / 0x1000) :: [] from rfl]
          exact decGo_pending _ 1 [] hl (by simp) (by simp)
        · rw [show List.take 2 [0xE0 + c.toNat / 0x1000, 0x80 + (c.toNat / 0x40) % 0x40,
              0x80 + c.toNat % 0x40]
              = (0xE0 + c.toNat / 0x1000) :: [0x80 + (c.toNat / 0x40) % 0x40] from rfl]
          exact decGo_pending _ 1 [0x80 + (c.toNat / 0x40) % 0x40] hl (by simp)
            (by simp [contByte]; omega)
      · rw [show encChar c = [0xF0 + c.toNat / 0x40000, 0x80 + (c.toNat / 0x1000) % 0x40,
            0x80 + (c.toNat / 0x40) % 0x40, 0x80 + c.toNat % 0x40] from by
            rw [encChar, if_neg hb1, if_neg hb2, if_neg hb3]] at h2 ⊢
        simp at h2
        have hl : leadLen (0xF0 + c.toNat / 0x40000) = some 3 := by
          rw [leadLen, if_neg (by omega), if_neg (by omega), if_neg (by omega),
            if_pos (by omega)]
        rcases show j = 1 ∨ j = 2 ∨ j = 3 from by omega with hj | hj | hj <;> subst hj
        · rw [show List.take 1 [0xF0 + c.toNat / 0x40000, 0x80 + (c.toNat / 0x1000) % 0x40,
              0x80 + (c.toNat / 0x40) % 0x40, 0x80 + c.toNat % 0x40]
              = (0xF0 + c.toNat / 0x40000) :: [] from rfl]
          exact decGo_pending _ 2 [] hl (by simp) (by simp)
        · rw [show List.take 2 [0xF0 + c.toNat / 0x40000, 0x80 + (c.toNat / 0x1000) % 0x40,
              0x80 + (c.toNat / 0x40) % 0x40, 0x80 + c.toNat % 0x40]
              = (0xF0 + c.toNat / 0x40000) :: [0x80 + (c.toNat / 0x1000) % 0x40] from rfl]
          exact decGo_pending _ 2 [0x80 + (c.toNat / 0x1000) % 0x40] hl (by simp)
            (by simp [contByte]; omega)
        · rw [show List.take 3 [0xF0 + c.toNat / 0x40000, 0x80 + (c.toNat / 0x1000) % 0x40,
              0x80 + (c.toNat / 0x40) % 0x40, 0x80 + c.toNat % 0x40]
              = (0xF0 + c.toNat / 0x40000) :: [0x80 + (c.toNat / 0x1000) % 0x40,
                0x80 + (c.toNat / 0x40) % 0x40] from rfl]
          exact decGo_pending _ 2 [0x80 + (c.toNat / 0x1000) % 0x40,
            0x80 + (c.toNat / 0x40) % 0x40] hl (by simp) (by simp [contByte]; omega)

theorem decodeBytes_encStr_append (s : Chars) (tail : List Nat) :
    decodeBytes (encStr s ++ tail) = (s ++ (decodeBytes tail).1, (decodeBytes tail).2) := by
  induction s with
  | nil => simp [encStr]
  | cons c cs ih =>
    rw [encStr, List.append_assoc, decodeBytes_encChar_append, ih]
    simp

theorem encStr_append (a b : Chars) : encStr (a ++ b) = encStr a ++ encStr b := by
  induction a with
  | nil => simp [encStr]
  | cons c cs ih => rw [List.cons_append, encStr, encStr, ih, List.append_assoc]

theorem matchNamePat_head_ne (c : Char) (cs : Chars) (hc : c ≠ '"') :
    matchNamePat (c :: cs) = none := by
  simp only [matchNamePat, litNAME, dropLit, if_neg hc]

theorem stripGo_id (f : Nat) : ∀ s : Chars, (∀ c ∈ s, c ≠ '"') → stripGo f s = s := by
  induction f with
  | zero =>
    intro s h
    rfl
  | succ g ih =>
    intro s h
    cases s with
    | nil => rfl
    | cons c cs =>
      simp only [stripGo, matchNamePat_head_ne c cs (h c (List.mem_cons_self c cs))]
      rw [ih cs (fun a ha => h a (List.mem_cons.mpr (Or.inr ha)))]

theorem stripToolNames_id (s : Chars) (h : ∀ c ∈ s, c ≠ '"') : stripToolNames s = s :=
  stripGo_id s.length s h

/-- Decompose any byte-position split of an encoded string: either the cut
falls on a character boundary, or it falls strictly inside the encoding of
one character. -/
theorem encStr_split (s : Chars) : ∀ k : Nat, k ≤ (encStr s).length →
    (∃ s1 s2, s = s1 ++ s2 ∧ (encStr s).take k = encStr s1 ∧ (encStr s).drop k = encStr s2) ∨
    (∃ s1 c s2 j, s = s1 ++ c :: s2 ∧ 1 ≤ j ∧ j < (encChar c).length ∧
      (encStr s).take k = encStr s1 ++ (encChar c).take j ∧
      (encStr s).drop k = (encChar c).drop j ++ encStr s2) := by
  induction s with
  | nil =>
    intro k hk
    left
    refine ⟨[], [], rfl, ?_, ?_⟩ <;> simp [encStr]
  | cons c cs ih =>
    intro k hk
    by_cases hk0 : k = 0
    · subst hk0
      left
      exact ⟨[], c :: cs, rfl, by simp [encStr], by simp⟩
    · by_cases hkL : k < (encChar c).length
      · right
        refine ⟨[], c, cs, k, rfl, by omega, hkL, ?_, ?_⟩
        · rw [show encStr (c :: cs) = encChar c ++ encStr cs from rfl,
            List.take_append_of_le_length (by omega)]
          simp [encStr]
        · rw [show encStr (c :: cs) = encChar c ++ encStr cs from rfl,
            List.drop_append_of_le_length (by omega)]
      · have hge : (encChar c).length ≤ k := by omega
        have hk2 : k - (encChar c).length ≤ (encStr cs).length := by
          rw [show encStr (c :: cs) = encChar c ++ encStr cs from rfl,
            List.length_append] at hk
          omega
        rcases ih (k - (encChar c).length) hk2 with ⟨s1, s2, hs, ht, hd⟩ |
          ⟨s1, c2, s2, j, hs, hj1, hj2, ht, hd⟩
        · left
          refine ⟨c :: s1, s2, by rw [hs, List.cons_append], ?_, ?_⟩
          · rw [show encStr (c :: s1) = encChar c ++ encStr s1 from rfl,
              show encStr (c :: cs) = encChar c ++ encStr cs from rfl,
              show k = (encChar c).length + (k - (encChar c).length) from by omega,
              List.take_append, ht]
          · rw [show encStr (c :: cs) = encChar c ++ encStr cs from rfl,
              show k = (encChar c).length + (k - (encChar c).length) from by omega,
              List.drop_append, hd]
        · right
          refine ⟨c :: s1, c2, s2, j, by rw [hs, List.cons_append], hj1, hj2, ?_, ?_⟩
          · rw [show encStr (c :: s1) = encChar c ++ encStr s1 from rfl,
              show encStr (c :: cs) = encChar c ++ encStr cs from rfl,
              show k = (encChar c).length + (k - (encChar c).length) from by omega,
              List.take_append, ht, List.append_assoc]
          · rw [show encStr (c :: cs) = encChar c ++ encStr cs from rfl,
              show k = (encChar c).length + (k - (encChar c).length) from by omega,
              List.drop_append, hd]

theorem tsrGo_length (chunks : List (List Nat)) : ∀ pending,
    (tsrGo pending chunks).length = chunks.length := by
  induction chunks with
  | nil => intro pending; rfl
  | cons ch rest ih =>
    intro pending
    rw [tsrGo]
    simp only [List.length_cons]
    rw [ih]

theorem decodeBytes_encStr (s : Chars) : decodeBytes (encStr s) = (s, []) := by
  have h := decodeBytes_encStr_append s []
  rw [List.append_nil] at h
  simpa [decodeBytes, decGo] using h

/-- Claim C7: the streaming transformer emits exactly one output chunk
per input chunk, and decoding is stateful across chunks: a byte stream
encoding a text free of the quote character (so the substitution leaves
it unchanged), split at any byte position into two chunks - including a
position inside a multi-byte character - re-joins to exactly the original
byte stream, with no replacement or garbled characters at the seam. -/
theorem transformStreamingResponse_spec :
    (∀ chunks : List (List Nat), (transformStreamingResponse chunks).length = chunks.length) ∧
    (∀ (text : Chars) (k : Nat), (∀ c ∈ text, c ≠ '"') → k ≤ (encStr text).length →
      listJoin (transformStreamingResponse [(encStr text).take k, (encStr text).drop k])
        = encStr text) := by
  constructor
  · intro chunks
    exact tsrGo_length chunks []
  · intro text k hq hk
    rcases encStr_split text k hk with ⟨s1, s2, hs, ht, hd⟩ |
      ⟨s1, c, s2, j, hs, hj1, hj2, ht, hd⟩
    · have h1 : decStep [] (encStr s1) = (s1, []) := by
        rw [decStep, List.nil_append, decodeBytes_encStr]
      have h2 : decStep [] (encStr s2) = (s2, []) := by
        rw [decStep, List.nil_append, decodeBytes_encStr]
      have hq1 : ∀ a ∈ s1, a ≠ '"' := fun a ha => hq a (by
        rw [hs]; exact List.mem_append.mpr (Or.inl ha))
      have hq2 : ∀ a ∈ s2, a ≠ '"' := fun a ha => hq a (by
        rw [hs]; exact List.mem_append.mpr (Or.inr ha))
      rw [transformStreamingResponse, ht, hd, tsrGo]
      simp only [h1]
      rw [tsrGo]
      simp only [h2]
      rw [tsrGo]
      rw [stripToolNames_id s1 hq1, stripToolNames_id s2 hq2]
      rw [listJoin, listJoin, listJoin]
      rw [List.append_nil, ← encStr_append, ← hs]
    · have h1 : decStep [] (encStr s1 ++ (encChar c).take j) = (s1, (encChar c).take j) := by
        rw [decStep, List.nil_append, decodeBytes_encStr_append,
          decodeBytes_encChar_partial c j hj1 hj2]
        simp
      have h2 : decStep ((encChar c).take j) ((encChar c).drop j ++ encStr s2)
          = (c :: s2, []) := by
        rw [decStep, ← List.append_assoc, List.take_append_drop]
        rw [show encChar c ++ encStr s2 = encStr (c :: s2) from rfl, decodeBytes_encStr]
      have hq1 : ∀ a ∈ s1, a ≠ '"' := fun a ha => hq a (by
        rw [hs]; exact List.mem_append.mpr (Or.inl ha))
      have hq2 : ∀ a ∈ c :: s2, a ≠ '"' := fun a ha => hq a (by
        rw [hs]; exact List.mem_append.mpr (Or.inr ha))
      rw [transformStreamingResponse, ht, hd, tsrGo]
      simp only [h1]
      rw [tsrGo]
      simp only [h2]
      rw [tsrGo]
      rw [stripToolNames_id s1 hq1, stripToolNames_id (c :: s2) hq2]
      rw [listJoin, listJoin, listJoin]
      rw [List.append_nil, ← encStr_append, ← hs]

/-- Witness for C7: the two-byte character e-acute split between its two
bytes, followed by the letter A. -/
theorem transformStreamingResponse_spec_witness :
    listJoin (transformStreamingResponse [[0xC3], [0xA9, 0x41]]) = [0xC3, 0xA9, 0x41] ∧
    (transformStreamingResponse [[0xC3], [0xA9, 0x41]]).length = 2 := by
  have he : encStr [Char.ofNat 0xE9, 'A'] = [0xC3, 0xA9, 0x41] := by decide
  have h2 := transformStreamingResponse_spec.2 [Char.ofNat 0xE9, 'A'] 1 (by decide)
    (by rw [he]; decide)
  rw [he] at h2
  have h1 := transformStreamingResponse_spec.1 [[0xC3], [0xA9, 0x41]]
  refine ⟨?_, by rw [h1]; rfl⟩
  have htk : ([0xC3, 0xA9, 0x41] : List Nat).take 1 = [0xC3] := rfl
  have hdp : ([0xC3, 0xA9, 0x41] : List Nat).drop 1 = [0xA9, 0x41] := rfl
  rw [htk, hdp] at h2
  exact h2
